import Mathlib

/-!
Verification development for the `golang-rs` lexing repository.

The repository's front-end modules `src/lang/bnf.rs`, `src/lang/ebnf.rs` and
`src/lang/golang.rs` are embedded shallowly: source text is a `List Char`,
string payloads are `List Char`, and every regular-expression pattern of a
rule table is translated into an anchored matching function with the same
semantics (anchored at the start of the remaining input, lazy/greedy
quantifiers resolved exactly as the `regex` crate resolves them for these
concrete patterns).

The generic engine (`Lexer`, `LexerBuilder`, the `Token` trait, streaming)
lives in the repository's `lex` crate, which is not part of the provided
sources; those parts are modelled from the specification and are marked
`Modelled from the spec:` in their doc comments.
-/

/-- Named character constants, used instead of character literals that would
be awkward to write inline. -/
def quoteC : Char := Char.ofNat 34

/-- Apostrophe / single quote `U+0027`. -/
def apostC : Char := Char.ofNat 39

/-- Backslash `U+005C`. -/
def bslashC : Char := Char.ofNat 92

/-- Left curly brace `U+007B`. -/
def lbraceC : Char := Char.ofNat 123

/-- Right curly brace `U+007D`. -/
def rbraceC : Char := Char.ofNat 125

/-- Result of a successful anchored regex match: `m0` is the whole matched
text (capture group 0) and `m1` the text of capture group 1 when the pattern
has one (`c.get(1)` in the Rust constructors). -/
structure RMatch where
  m0 : List Char
  m1 : Option (List Char)
  deriving DecidableEq, Repr

namespace Rx

/-- Anchored literal fragment: consumes `lit` from the front of `s` and
returns the rest, or fails. -/
def litDrop : List Char → List Char → Option (List Char)
  | [], s => some s
  | a :: l, b :: s => if a = b then litDrop l s else none
  | _ :: _, [] => none

/-- Anchored matcher for a literal pattern such as `;`, `::=`, `\|`:
group 0 is the literal itself, no group 1. -/
def litPat (lit : List Char) : List Char → Option (RMatch × List Char) :=
  fun s => (litDrop lit s).map (fun r => (⟨lit, none⟩, r))

/-- Lazy scan for `(.*?)stop` where `.` does not match a newline: returns the
shortest (possibly empty) newline-free group followed by `stop`, and the
input after `stop`. -/
def lazyUntil (stop : Char) : List Char → Option (List Char × List Char)
  | [] => none
  | c :: rest =>
    if c = stop then some ([], rest)
    else if c = '\n' then none
    else (lazyUntil stop rest).map (fun g => (c :: g.1, g.2))

/-- Lazy scan for `(.+?)stop` (non-empty group); same as `lazyUntil` but the
group must contain at least one character. -/
def lazyUntil1 (stop : Char) : List Char → Option (List Char × List Char)
  | [] => none
  | c :: rest =>
    if c = '\n' then none
    else (lazyUntil stop rest).map (fun g => (c :: g.1, g.2))

/-- Lazy scan for `(?s)(.*?)ab` (dot-all): shortest group followed by the
two-character terminator `a b`. -/
def lazyUntil2 (a b : Char) : List Char → Option (List Char × List Char)
  | [] => none
  | [_] => none
  | c :: d :: rest =>
    if c = a ∧ d = b then some ([], rest)
    else (lazyUntil2 a b (d :: rest)).map (fun g => (c :: g.1, g.2))

/-- Anchored matcher for the non-terminal pattern `<(.+?)>` of
`bnf.rs` / `ebnf.rs`. -/
def nonTermPat : List Char → Option (RMatch × List Char)
  | '<' :: u => (lazyUntil1 '>' u).map (fun g => (⟨'<' :: g.1 ++ ['>'], some g.1⟩, g.2))
  | _ => none

/-- Anchored matcher for the terminal pattern `"(.*?)"` of
`bnf.rs` / `ebnf.rs`. -/
def termPat (s : List Char) : Option (RMatch × List Char) :=
  match s with
  | c :: u =>
    if c = quoteC then
      (lazyUntil quoteC u).map (fun g => (⟨quoteC :: g.1 ++ [quoteC], some g.1⟩, g.2))
    else none
  | [] => none

/-- Anchored matcher for the line-comment pattern `//([^\n]*)\n?` of
`ebnf.rs`: greedy newline-free group, then an optional newline that is part
of the lexeme but not of the group. -/
def lineCommentPat : List Char → Option (RMatch × List Char)
  | '/' :: '/' :: u =>
    let g := u.takeWhile (fun c => c ≠ '\n')
    match u.dropWhile (fun c => c ≠ '\n') with
    | '\n' :: r => some (⟨'/' :: '/' :: g ++ ['\n'], some g⟩, r)
    | r => some (⟨'/' :: '/' :: g, some g⟩, r)
  | _ => none

/-- Anchored matcher for the block-comment pattern `(?s)/\*(.*?)\*/` of
`ebnf.rs`. -/
def blockCommentPat : List Char → Option (RMatch × List Char)
  | '/' :: '*' :: u =>
    (lazyUntil2 '*' '/' u).map (fun g => (⟨'/' :: '*' :: g.1 ++ ['*', '/'], some g.1⟩, g.2))
  | _ => none

end Rx

/-- Modelled from the spec: `Rule` (spec section 3) — an immutable
(pattern, token-constructor) pair; the compiled pattern is represented by its
anchored matching function, the constructor receives the match object. The
`lex` crate defining this is not among the provided sources. -/
structure Rule (τ : Type) where
  pat : List Char → Option (RMatch × List Char)
  ctor : RMatch → τ

/-- Modelled from the spec: the compiled, immutable `Engine`/`Lexer`
(spec section 3) — an ordered rule sequence plus a whitespace-skip
function. -/
structure Lexer (τ : Type) where
  skip : List Char → List Char
  rules : List (Rule τ)

/-- Modelled from the spec: `LexerBuilder` (spec section 4.1) — accumulates
an optional whitespace classifier and an ordered rule list. -/
structure LexerBuilder (τ : Type) where
  skipFn : Option (List Char → List Char)
  rules : List (Rule τ)

/-- Modelled from the spec: `LexerBuilder::new()` — empty configuration. -/
def LexerBuilder.new {τ : Type} : LexerBuilder τ :=
  ⟨none, []⟩

/-- Modelled from the spec: `skip_whitespaces(fn)` installs the whitespace
classifier, replacing any previous one (spec section 4.1). -/
def LexerBuilder.skip_whitespaces {τ : Type} (b : LexerBuilder τ)
    (f : List Char → List Char) : LexerBuilder τ :=
  { b with skipFn := some f }

/-- Modelled from the spec: `add(pattern, constructor)` appends a Rule
(spec section 4.1); priority is the registration index. -/
def LexerBuilder.add {τ : Type} (b : LexerBuilder τ)
    (p : List Char → Option (RMatch × List Char)) (c : RMatch → τ) : LexerBuilder τ :=
  { b with rules := b.rules ++ [⟨p, c⟩] }

/-- Modelled from the spec: `build()` compiles the configuration into an
immutable engine. Pattern compilation failure (`InvalidPattern`) cannot arise
in this embedding because patterns are already matching functions; when no
whitespace classifier was installed the engine skips nothing (spec section 6:
the engine has no built-in notion of whitespace). -/
def LexerBuilder.build {τ : Type} (b : LexerBuilder τ) : Lexer τ :=
  ⟨b.skipFn.getD id, b.rules⟩

/-- Modelled from the spec: the engine tries each rule in registration order
and the first whose pattern matches wins (spec section 4.2), yielding the
constructed token, the matched lexeme (group 0) and the remaining input. -/
def firstMatch {τ : Type} : List (Rule τ) → List Char → Option (τ × List Char × List Char)
  | [], _ => none
  | r :: rs, s =>
    match r.pat s with
    | some (m, rest) => some (r.ctor m, m.m0, rest)
    | none => firstMatch rs s

/-- Modelled from the spec: outcome of the engine's single-step operation
`step` (spec section 4.2): a token with its lexeme and the unconsumed
remainder, end of input, or `UnrecognizedInput`. -/
inductive StepResult (τ : Type) where
  | tok (t : τ) (lexeme : List Char) (rest : List Char)
  | eof
  | err
  deriving DecidableEq

/-- Modelled from the spec: the engine's single step (`step`, also exposed
as `Lexer::next` in the Go front-end test): apply the whitespace skip, signal
end-of-input if nothing remains, otherwise try the rules in registration
order; if none matches, fail with `UnrecognizedInput`. -/
def Lexer.next {τ : Type} (l : Lexer τ) (input : List Char) : StepResult τ :=
  let s := l.skip input
  if s = [] then .eof
  else
    match firstMatch l.rules s with
    | some (t, lex, rest) => .tok t lex rest
    | none => .err

/-- Modelled from the spec: fuel-indexed stream iteration — repeatedly step
the engine, collecting the raw tokens, halting at end-of-input or at the
first `UnrecognizedInput` (spec section 4.3). -/
def rawTokensFuel {τ : Type} (l : Lexer τ) : Nat → List Char → List τ
  | 0, _ => []
  | Nat.succ fuel, input =>
    match l.next input with
    | .tok t _ rest => t :: rawTokensFuel l fuel rest
    | _ => []

/-- Modelled from the spec: the raw token sequence of a source text
(`into_tokens(..).into_raw().collect()`): the produced sequence is finite,
bounded by the input length, so `length + 1` steps of fuel always suffice
(every successful match consumes at least the lexeme). -/
def Lexer.rawTokens {τ : Type} (l : Lexer τ) (input : List Char) : List τ :=
  rawTokensFuel l (input.length + 1) input

/-- Modelled from the spec: `Position` (spec section 3). -/
structure Position where
  line : Nat
  column : Nat
  byteOffset : Nat
  deriving DecidableEq, Repr

/-- Modelled from the spec: the error taxonomy (spec section 7). -/
inductive LexErrorKind where
  | UnrecognizedInput
  | InvalidPattern
  deriving DecidableEq, Repr

/-- Modelled from the spec: `LexError` (spec section 3) — the position is
absent for the build-time `InvalidPattern` case. -/
structure LexError where
  kind : LexErrorKind
  position : Option Position
  deriving DecidableEq, Repr

/-- Modelled from the spec: `TokenMeta` (spec section 3) — a token with its
position, source name and lexeme. -/
structure TokenMeta (τ : Type) where
  token : τ
  position : Position
  source_name : List Char
  lexeme : List Char
  deriving DecidableEq

/-- Modelled from the spec: one item of a token stream
(`MetaResult` in `ebnf.rs`): a `TokenMeta` or a `LexError`. -/
abbrev MetaResult (τ : Type) : Type :=
  Except LexError (TokenMeta τ)

instance {τ : Type} [DecidableEq τ] : DecidableEq (MetaResult τ)
  | Except.ok x, Except.ok y =>
    if h : x = y then .isTrue (by rw [h]) else .isFalse (by intro hc; cases hc; exact h rfl)
  | Except.ok _, Except.error _ => .isFalse (by intro hc; cases hc)
  | Except.error _, Except.ok _ => .isFalse (by intro hc; cases hc)
  | Except.error e, Except.error f =>
    if h : e = f then .isTrue (by rw [h]) else .isFalse (by intro hc; cases hc; exact h rfl)

/-- `BnfOperator` from `src/lang/bnf.rs`. -/
inductive BnfOperator where
  | Def
  | Alt
  deriving DecidableEq, Repr

/-- `BnfToken` from `src/lang/bnf.rs`: terminals, non-terminals, the two
operators and the rule delimiter; string payloads are `List Char`. -/
inductive BnfToken where
  | Terminal (s : List Char)
  | NonTerminal (s : List Char)
  | Operator (op : BnfOperator)
  | Delimiter
  deriving DecidableEq, Repr

namespace Bnf

/-- `is_whitespace` from `src/lang/bnf.rs`: the character is cast to `u8`
(`c as u8`, i.e. the low 8 bits of the code point) and compared against
space, horizontal tab, carriage return and newline. -/
def is_whitespace (c : Char) : Bool :=
  let b := c.toNat % 256
  b == 0x20 || b == 0x09 || b == 0x0d || b == 0x0a

/-- `whitespace_filter` from `src/lang/bnf.rs`: the suffix of the source
starting at the first non-whitespace character (the empty suffix when every
character is whitespace). -/
def whitespace_filter : List Char → List Char
  | [] => []
  | c :: rest => if is_whitespace c then whitespace_filter rest else c :: rest

/-- The builder chain of `make_lexer` in `src/lang/bnf.rs`, before `build()`:
whitespace classifier then the five rules in registration order
`;`, `::=`, `\|`, `<(.+?)>`, `"(.*?)"`. -/
def builderConfig : LexerBuilder BnfToken :=
  (((((LexerBuilder.new.skip_whitespaces whitespace_filter).add
      (Rx.litPat [';']) (fun _ => BnfToken.Delimiter)).add
      (Rx.litPat [':', ':', '=']) (fun _ => BnfToken.Operator BnfOperator.Def)).add
      (Rx.litPat ['|']) (fun _ => BnfToken.Operator BnfOperator.Alt)).add
      Rx.nonTermPat (fun c => BnfToken.NonTerminal (c.m1.getD []))).add
      Rx.termPat (fun c => BnfToken.Terminal (c.m1.getD []))

/-- `make_lexer` from `src/lang/bnf.rs`. -/
def make_lexer : Lexer BnfToken :=
  builderConfig.build

end Bnf

namespace BnfToken

/-- `describe` of `impl Token for BnfToken` in `src/lang/bnf.rs`. -/
def describe : BnfToken → List Char
  | .Terminal s => quoteC :: s ++ [quoteC]
  | .NonTerminal s => '<' :: s ++ ['>']
  | .Operator BnfOperator.Def => [':', ':', '=']
  | .Operator BnfOperator.Alt => ['|']
  | .Delimiter => [';']

/-- `descriptor` of `impl Token for BnfToken` in `src/lang/bnf.rs`. -/
def descriptor : BnfToken → List Char
  | .Terminal _ => String.toList "Terminal"
  | .NonTerminal _ => String.toList "NonTerminal"
  | .Operator BnfOperator.Def => [':', ':', '=']
  | .Operator BnfOperator.Alt => ['|']
  | .Delimiter => [';']

/-- Enum discriminant of a `BnfToken`, the analogue of Rust's
`std::mem::discriminant`: two values are of the same variant exactly when
their discriminants agree. -/
def variant : BnfToken → Nat
  | .Terminal _ => 0
  | .NonTerminal _ => 1
  | .Operator _ => 2
  | .Delimiter => 3

end BnfToken

/-- `EbnfOperator` from `src/lang/ebnf.rs`. -/
inductive EbnfOperator where
  | Def
  | Alt
  deriving DecidableEq, Repr

/-- `Side` from `src/lang/ebnf.rs`. -/
inductive Side where
  | Start
  | End
  deriving DecidableEq, Repr

/-- `EbnfToken` from `src/lang/ebnf.rs`. -/
inductive EbnfToken where
  | Terminal (s : List Char)
  | NonTerminal (s : List Char)
  | Operator (op : EbnfOperator)
  | Repeat (side : Side)
  | Optional (side : Side)
  | Group (side : Side)
  | Delimiter
  | Comment (s : List Char)
  deriving DecidableEq, Repr

namespace Ebnf

/-- `is_whitespace` from `src/lang/ebnf.rs` (same body as the BNF one):
compares the low 8 bits of the code point (`c as u8`) against space, tab,
carriage return and newline. -/
def is_whitespace (c : Char) : Bool :=
  let b := c.toNat % 256
  b == 0x20 || b == 0x09 || b == 0x0d || b == 0x0a

/-- `whitespace_filter` from `src/lang/ebnf.rs` (same body as the BNF
one). -/
def whitespace_filter : List Char → List Char
  | [] => []
  | c :: rest => if is_whitespace c then whitespace_filter rest else c :: rest

/-- The builder chain of `make_lexer` in `src/lang/ebnf.rs`, before
`build()`: whitespace classifier then the thirteen rules in registration
order. -/
def builderConfig : LexerBuilder EbnfToken :=
  (((((((((((((LexerBuilder.new.skip_whitespaces whitespace_filter).add
      (Rx.litPat [':', ':', '=']) (fun _ => EbnfToken.Operator EbnfOperator.Def)).add
      (Rx.litPat ['|']) (fun _ => EbnfToken.Operator EbnfOperator.Alt)).add
      Rx.nonTermPat (fun c => EbnfToken.NonTerminal (c.m1.getD []))).add
      Rx.termPat (fun c => EbnfToken.Terminal (c.m1.getD []))).add
      (Rx.litPat [lbraceC]) (fun _ => EbnfToken.Repeat Side.Start)).add
      (Rx.litPat [rbraceC]) (fun _ => EbnfToken.Repeat Side.End)).add
      (Rx.litPat ['[']) (fun _ => EbnfToken.Optional Side.Start)).add
      (Rx.litPat [']']) (fun _ => EbnfToken.Optional Side.End)).add
      (Rx.litPat ['(']) (fun _ => EbnfToken.Group Side.Start)).add
      (Rx.litPat [')']) (fun _ => EbnfToken.Group Side.End)).add
      (Rx.litPat [';']) (fun _ => EbnfToken.Delimiter)).add
      Rx.lineCommentPat (fun c => EbnfToken.Comment (c.m1.getD []))).add
      Rx.blockCommentPat (fun c => EbnfToken.Comment (c.m1.getD []))

/-- `make_lexer` from `src/lang/ebnf.rs`. -/
def make_lexer : Lexer EbnfToken :=
  builderConfig.build

end Ebnf

namespace EbnfToken

/-- `describe` of `impl Token for EbnfToken` in `src/lang/ebnf.rs`. -/
def describe : EbnfToken → List Char
  | .Terminal t => quoteC :: t ++ [quoteC]
  | .NonTerminal t => '<' :: t ++ ['>']
  | .Comment c => String.toList "/* " ++ c ++ String.toList " */\n"
  | .Operator EbnfOperator.Def => [':', ':', '=']
  | .Operator EbnfOperator.Alt => ['|']
  | .Repeat Side.Start => [lbraceC]
  | .Repeat Side.End => [rbraceC]
  | .Optional Side.Start => ['[']
  | .Optional Side.End => [']']
  | .Group Side.Start => ['(']
  | .Group Side.End => [')']
  | .Delimiter => [';']

/-- `descriptor` of `impl Token for EbnfToken` in `src/lang/ebnf.rs`. -/
def descriptor : EbnfToken → List Char
  | .Terminal _ => String.toList "Terminal"
  | .NonTerminal _ => String.toList "NonTerminal"
  | .Operator EbnfOperator.Def => [':', ':', '=']
  | .Operator EbnfOperator.Alt => ['|']
  | .Repeat Side.Start => [lbraceC]
  | .Repeat Side.End => [rbraceC]
  | .Optional Side.Start => ['[']
  | .Optional Side.End => [']']
  | .Group Side.Start => ['(']
  | .Group Side.End => [')']
  | .Delimiter => [';']
  | .Comment _ => String.toList "Comment"

end EbnfToken

/-- The predicate the `DropComments` adapter in `src/lang/ebnf.rs` filters
on: the item is a successful `TokenMeta` whose token is a `Comment`
(the `while let Some(Ok(TokenMeta { token: Comment(_), .. }))` pattern). -/
def isOkComment : MetaResult EbnfToken → Bool
  | Except.ok m =>
    match m.token with
    | EbnfToken.Comment _ => true
    | _ => false
  | Except.error _ => false

/-- One pull of `DropComments::next` from `src/lang/ebnf.rs`, with the inner
stream represented by the list of items it has yet to yield: inner items are
pulled while they are `Ok` comment tokens; the first other item (token or
error) is returned together with the items still unpulled, `none` at
end-of-stream. -/
def dropCommentsNext :
    List (MetaResult EbnfToken) → Option (MetaResult EbnfToken × List (MetaResult EbnfToken))
  | [] => none
  | x :: rest => if isOkComment x then dropCommentsNext rest else some (x, rest)

/-- Each successful pull of `DropComments::next` strictly consumes inner
items; this is the termination measure for iterating the adapter. -/
def dropCommentsNext_shrinks :
    ∀ (l : List (MetaResult EbnfToken)) (i : MetaResult EbnfToken)
      (r : List (MetaResult EbnfToken)),
      dropCommentsNext l = some (i, r) → r.length < l.length := by
  intro l
  induction l with
  | nil => intro i r h; simp [dropCommentsNext] at h
  | cons x rest ih =>
    intro i r h
    rw [dropCommentsNext] at h
    by_cases hx : isOkComment x = true
    · rw [if_pos hx] at h
      exact Nat.lt_trans (ih i r h) (Nat.lt_succ_self _)
    · rw [if_neg hx] at h
      cases h
      exact Nat.lt_succ_self _

/-- The full output of the `DropComments` adapter over an inner stream:
repeated pulls of `DropComments::next` until the inner stream is
exhausted. -/
def dropComments (l : List (MetaResult EbnfToken)) : List (MetaResult EbnfToken) :=
  match h : dropCommentsNext l with
  | none => []
  | some (i, rest) => i :: dropComments rest
termination_by l.length
decreasing_by exact dropCommentsNext_shrinks l i rest h

/-- `GoKeyword` from `src/lang/golang.rs` (the constructor `Type` is written
with guillemets because `Type` is reserved in Lean). -/
inductive GoKeyword where
  | Break
  | Default
  | Func
  | Interface
  | Select
  | Case
  | Defer
  | Go
  | Map
  | Struct
  | Chan
  | Else
  | Goto
  | Package
  | Switch
  | Const
  | Fallthrough
  | If
  | Range
  | «Type»
  | Continue
  | For
  | Import
  | Return
  | Var
  deriving DecidableEq, Repr

/-- `GoOperator` from `src/lang/golang.rs`. -/
inductive GoOperator where
  | Add
  | Sub
  | Mul
  | Quo
  | Rem
  | And
  | Or
  | Xor
  | Shl
  | Shr
  | AndNot
  | AddAssign
  | SubAssign
  | QuoAssign
  | RemAssign
  | MulAssign
  | AndAssign
  | OrAssign
  | XorAssign
  | ShlAssign
  | ShrAssign
  | AndNotAssign
  | LAnd
  | LOr
  | Arrow
  | Inc
  | Dec
  | Eql
  | Lss
  | Gtr
  | Assign
  | Not
  | NEq
  | LEq
  | GEq
  | Define
  | Ellipsis
  | LParen
  | LBrack
  | LBrace
  | Comma
  | Period
  | RParen
  | RBrack
  | RBrace
  | Semicolon
  | Colon
  deriving DecidableEq, Repr

/-- `GoLiteral` from `src/lang/golang.rs`. -/
inductive GoLiteral where
  | String (s : List Char)
  | Integer (s : List Char)
  | Float (s : List Char)
  | Imaginary (s : List Char)
  | Rune (s : List Char)
  deriving DecidableEq, Repr

/-- `GoToken` from `src/lang/golang.rs`. -/
inductive GoToken where
  | Ident (s : List Char)
  | Keyword (kw : GoKeyword)
  | Operator (op : GoOperator)
  | Literal (lit : GoLiteral)
  | Comment (s : List Char)
  deriving DecidableEq, Repr

namespace Golang

/-- `[0-9A-Fa-f]`, a hexadecimal digit of the rune pattern. -/
def hexDigit (c : Char) : Bool :=
  ('0' ≤ c && c ≤ '9') || ('A' ≤ c && c ≤ 'F') || ('a' ≤ c && c ≤ 'f')

/-- `[0-7]`, an octal digit of the rune pattern. -/
def octDigit (c : Char) : Bool :=
  '0' ≤ c && c ≤ '7'

/-- The escaped-character class `[abfnrtv\\'"]` of the rune pattern. -/
def escapedChar (c : Char) : Bool :=
  c == 'a' || c == 'b' || c == 'f' || c == 'n' || c == 'r' || c == 't' || c == 'v'
    || c == bslashC || c == apostC || c == quoteC

/-- Exactly `n` characters satisfying `p`, returning them and the rest. -/
def takeExact (p : Char → Bool) : Nat → List Char → Option (List Char × List Char)
  | 0, l => some ([], l)
  | Nat.succ n, c :: l =>
    if p c then (takeExact p n l).map (fun g => (c :: g.1, g.2)) else none
  | Nat.succ _, [] => none

/-- The body of the rune pattern of `src/lang/golang.rs` between the quotes:
`unicode_char | little_u_value | big_u_value | escaped_char | octal_byte_value
| hex_byte_value`, tried in the regex's alternation order (the alternatives
are pairwise disjoint on their first characters, so committed choice is
exact). Returns the consumed characters and the rest. -/
def runeInner : List Char → Option (List Char × List Char)
  | [] => none
  | c :: rest =>
    if c = bslashC then
      match rest with
      | [] => none
      | d :: r =>
        if d = 'u' then
          (takeExact hexDigit 4 r).map (fun g => (c :: d :: g.1, g.2))
        else if d = 'U' then
          (takeExact hexDigit 8 r).map (fun g => (c :: d :: g.1, g.2))
        else if escapedChar d then some ([c, d], r)
        else if octDigit d then
          (takeExact octDigit 3 rest).map (fun g => (c :: g.1, g.2))
        else if d = 'x' then
          (takeExact hexDigit 2 r).map (fun g => (c :: d :: g.1, g.2))
        else none
    else if c = '\n' then none
    else some ([c], rest)

/-- Anchored matcher for the whole rune-literal pattern of
`src/lang/golang.rs`: opening quote, one rune body, closing quote. Group 0
is the entire match including both single quotes; group 1 is the body. -/
def runePat (s : List Char) : Option (RMatch × List Char) :=
  match s with
  | c :: u =>
    if c = apostC then
      match runeInner u with
      | some (inner, r) =>
        match r with
        | c2 :: r2 =>
          if c2 = apostC then some (⟨apostC :: inner ++ [apostC], some inner⟩, r2) else none
        | [] => none
      | none => none
    else none
  | [] => none

/-- The builder chain of `make_lexer` in `src/lang/golang.rs`, before
`build()`: no whitespace classifier is installed; two rules are registered,
`-` (constructed as `Operator(GoOperator::Dec)`) and the rune literal, whose
constructor uses the entire match `c.get(0)`. -/
def builderConfig : LexerBuilder GoToken :=
  (LexerBuilder.new.add
      (Rx.litPat ['-']) (fun _ => GoToken.Operator GoOperator.Dec)).add
      runePat (fun c => GoToken.Literal (GoLiteral.Rune c.m0))

/-- `make_lexer` from `src/lang/golang.rs`. -/
def make_lexer : Lexer GoToken :=
  builderConfig.build

end Golang

namespace Golang

/-- Rust `{:?}` rendering of a `GoKeyword`: its constructor name. -/
def keywordDebug : GoKeyword → List Char
  | .Break => String.toList "Break"
  | .Default => String.toList "Default"
  | .Func => String.toList "Func"
  | .Interface => String.toList "Interface"
  | .Select => String.toList "Select"
  | .Case => String.toList "Case"
  | .Defer => String.toList "Defer"
  | .Go => String.toList "Go"
  | .Map => String.toList "Map"
  | .Struct => String.toList "Struct"
  | .Chan => String.toList "Chan"
  | .Else => String.toList "Else"
  | .Goto => String.toList "Goto"
  | .Package => String.toList "Package"
  | .Switch => String.toList "Switch"
  | .Const => String.toList "Const"
  | .Fallthrough => String.toList "Fallthrough"
  | .If => String.toList "If"
  | .Range => String.toList "Range"
  | .«Type» => String.toList "Type"
  | .Continue => String.toList "Continue"
  | .For => String.toList "For"
  | .Import => String.toList "Import"
  | .Return => String.toList "Return"
  | .Var => String.toList "Var"

/-- Rust `{:?}` rendering of a `GoOperator`: its constructor name. -/
def operatorDebug : GoOperator → List Char
  | .Add => String.toList "Add"
  | .Sub => String.toList "Sub"
  | .Mul => String.toList "Mul"
  | .Quo => String.toList "Quo"
  | .Rem => String.toList "Rem"
  | .And => String.toList "And"
  | .Or => String.toList "Or"
  | .Xor => String.toList "Xor"
  | .Shl => String.toList "Shl"
  | .Shr => String.toList "Shr"
  | .AndNot => String.toList "AndNot"
  | .AddAssign => String.toList "AddAssign"
  | .SubAssign => String.toList "SubAssign"
  | .QuoAssign => String.toList "QuoAssign"
  | .RemAssign => String.toList "RemAssign"
  | .MulAssign => String.toList "MulAssign"
  | .AndAssign => String.toList "AndAssign"
  | .OrAssign => String.toList "OrAssign"
  | .XorAssign => String.toList "XorAssign"
  | .ShlAssign => String.toList "ShlAssign"
  | .ShrAssign => String.toList "ShrAssign"
  | .AndNotAssign => String.toList "AndNotAssign"
  | .LAnd => String.toList "LAnd"
  | .LOr => String.toList "LOr"
  | .Arrow => String.toList "Arrow"
  | .Inc => String.toList "Inc"
  | .Dec => String.toList "Dec"
  | .Eql => String.toList "Eql"
  | .Lss => String.toList "Lss"
  | .Gtr => String.toList "Gtr"
  | .Assign => String.toList "Assign"
  | .Not => String.toList "Not"
  | .NEq => String.toList "NEq"
  | .LEq => String.toList "LEq"
  | .GEq => String.toList "GEq"
  | .Define => String.toList "Define"
  | .Ellipsis => String.toList "Ellipsis"
  | .LParen => String.toList "LParen"
  | .LBrack => String.toList "LBrack"
  | .LBrace => String.toList "LBrace"
  | .Comma => String.toList "Comma"
  | .Period => String.toList "Period"
  | .RParen => String.toList "RParen"
  | .RBrack => String.toList "RBrack"
  | .RBrace => String.toList "RBrace"
  | .Semicolon => String.toList "Semicolon"
  | .Colon => String.toList "Colon"

/-- Rust `Debug` escaping of one character inside a quoted string; the
common escapes (`\"`, `\\`, `\n`, `\t`, `\r`) are rendered, other characters
stand for themselves. -/
def strDebugEscape (c : Char) : List Char :=
  if c = quoteC then [bslashC, quoteC]
  else if c = bslashC then [bslashC, bslashC]
  else if c = '\n' then [bslashC, 'n']
  else if c = '\t' then [bslashC, 't']
  else if c = '\r' then [bslashC, 'r']
  else [c]

/-- Rust `{:?}` rendering of a `&str` payload: quoted and escaped. -/
def strDebug (s : List Char) : List Char :=
  quoteC :: (s.map strDebugEscape).flatten ++ [quoteC]

/-- Rust `{:?}` rendering of a `GoLiteral`. -/
def literalDebug : GoLiteral → List Char
  | .String s => String.toList "String(" ++ strDebug s ++ [')']
  | .Integer s => String.toList "Integer(" ++ strDebug s ++ [')']
  | .Float s => String.toList "Float(" ++ strDebug s ++ [')']
  | .Imaginary s => String.toList "Imaginary(" ++ strDebug s ++ [')']
  | .Rune s => String.toList "Rune(" ++ strDebug s ++ [')']

end Golang

namespace GoToken

/-- `describe` of `impl Token for GoToken` in `src/lang/golang.rs`:
identifiers render as their text, keywords as their `{:?}` name, everything
else as the `{:?}` rendering of the whole value. -/
def describe : GoToken → List Char
  | .Ident id => id
  | .Keyword kw => Golang.keywordDebug kw
  | .Operator op => String.toList "Operator(" ++ Golang.operatorDebug op ++ [')']
  | .Literal lit => String.toList "Literal(" ++ Golang.literalDebug lit ++ [')']
  | .Comment s => String.toList "Comment(" ++ Golang.strDebug s ++ [')']

end GoToken

/-- Which methods an `impl Token for ...` block defines. Modelled from the
spec: the `Token` trait itself lives in the `lex` crate, which is not among
the provided sources; spec section 4.5 requires every front-end token type to
provide both `describe()` and `descriptor()`. Each record below carries the
functions the corresponding `impl` block actually defines, `none` where the
block defines no such method. -/
structure TokenImplMethods (τ : Type) where
  describeImpl : Option (τ → List Char)
  descriptorImpl : Option (τ → List Char)

/-- The `impl Token for BnfToken` block of `src/lang/bnf.rs` defines both
`describe` and `descriptor`. -/
def bnfTokenImplMethods : TokenImplMethods BnfToken :=
  ⟨some BnfToken.describe, some BnfToken.descriptor⟩

/-- The `impl Token for EbnfToken` block of `src/lang/ebnf.rs` defines both
`describe` and `descriptor`. -/
def ebnfTokenImplMethods : TokenImplMethods EbnfToken :=
  ⟨some EbnfToken.describe, some EbnfToken.descriptor⟩

/-- The `impl Token for GoToken` block of `src/lang/golang.rs`
(lines 152-160) defines `describe` only — it contains no `descriptor`
method. -/
def goTokenImplMethods : TokenImplMethods GoToken :=
  ⟨some GoToken.describe, none⟩

/-- A two-rule engine over `Nat` tokens used to exercise rule priority: the
first registered rule matches the single character `a`, the second matches
the longer text `ab`, so on input `ab` both rules match and the second one
would match more text. -/
def overlapLexer : Lexer Nat :=
  ⟨id, [⟨Rx.litPat ['a'], fun _ => 1⟩, ⟨Rx.litPat ['a', 'b'], fun _ => 2⟩]⟩

/-- A concrete `Ok` comment item of an EBNF token stream. -/
def sampleCommentItem : MetaResult EbnfToken :=
  Except.ok ⟨EbnfToken.Comment [], ⟨1, 1, 0⟩, [], []⟩

/-- A concrete `UnrecognizedInput` error item of a token stream. -/
def sampleErrorItem : LexError :=
  ⟨LexErrorKind.UnrecognizedInput, some ⟨1, 1, 0⟩⟩

theorem bnf_whitespace_filter_suffix (s : List Char) :
    List.IsSuffix (Bnf.whitespace_filter s) s := by
  induction s with
  | nil => exact List.suffix_refl _
  | cons c rest ih =>
    rw [Bnf.whitespace_filter]
    by_cases h : Bnf.is_whitespace c = true
    · rw [if_pos h]
      obtain ⟨t, ht⟩ := ih
      exact ⟨c :: t, by rw [List.cons_append, ht]⟩
    · rw [if_neg h]

theorem bnf_whitespace_filter_idem (s : List Char) :
    Bnf.whitespace_filter (Bnf.whitespace_filter s) = Bnf.whitespace_filter s := by
  induction s with
  | nil => rfl
  | cons c rest ih =>
    by_cases h : Bnf.is_whitespace c = true
    · rw [Bnf.whitespace_filter, if_pos h]; exact ih
    · have h1 : Bnf.whitespace_filter (c :: rest) = c :: rest := by
        rw [Bnf.whitespace_filter, if_neg h]
      rw [h1]; exact h1

theorem ebnf_whitespace_filter_eq_bnf (s : List Char) :
    Ebnf.whitespace_filter s = Bnf.whitespace_filter s := by
  induction s with
  | nil => rfl
  | cons c rest ih =>
    rw [Ebnf.whitespace_filter, Bnf.whitespace_filter]
    have hc : Ebnf.is_whitespace c = Bnf.is_whitespace c := rfl
    rw [hc]
    by_cases h : Bnf.is_whitespace c = true
    · rw [if_pos h, if_pos h]; exact ih
    · rw [if_neg h, if_neg h]

/-- C4: for every input string, the whitespace classifier of the BNF and
EBNF front-ends is idempotent, and its result is a suffix of the input, of
length at most the input's length. -/
theorem whitespace_filter_contract (s : List Char) :
    Bnf.whitespace_filter (Bnf.whitespace_filter s) = Bnf.whitespace_filter s
      ∧ List.IsSuffix (Bnf.whitespace_filter s) s
      ∧ (Bnf.whitespace_filter s).length ≤ s.length
      ∧ Ebnf.whitespace_filter (Ebnf.whitespace_filter s) = Ebnf.whitespace_filter s
      ∧ List.IsSuffix (Ebnf.whitespace_filter s) s
      ∧ (Ebnf.whitespace_filter s).length ≤ s.length := by
  have hsuf := bnf_whitespace_filter_suffix s
  refine ⟨bnf_whitespace_filter_idem s, hsuf, hsuf.length_le, ?_, ?_, ?_⟩
  · rw [ebnf_whitespace_filter_eq_bnf, ebnf_whitespace_filter_eq_bnf]
    exact bnf_whitespace_filter_idem s
  · rw [ebnf_whitespace_filter_eq_bnf]; exact hsuf
  · rw [ebnf_whitespace_filter_eq_bnf]; exact hsuf.length_le

/-- C8: `is_whitespace` classifies a character by the low 8 bits of its code
point (`c as u8`), so every character whose code point is congruent to
`0x20`, `0x09`, `0x0D` or `0x0A` modulo 256 is skipped by
`whitespace_filter` as leading whitespace — in particular `U+0120`, which is
none of space, tab, carriage return or newline. -/
theorem is_whitespace_low_byte :
    (∀ c : Char, Bnf.is_whitespace c = true ↔
        (c.toNat % 256 = 0x20 ∨ c.toNat % 256 = 0x09
          ∨ c.toNat % 256 = 0x0d ∨ c.toNat % 256 = 0x0a))
      ∧ (∀ c : Char, Ebnf.is_whitespace c = Bnf.is_whitespace c)
      ∧ (∀ (c : Char) (s : List Char),
          (c.toNat % 256 = 0x20 ∨ c.toNat % 256 = 0x09
            ∨ c.toNat % 256 = 0x0d ∨ c.toNat % 256 = 0x0a) →
          Bnf.whitespace_filter (c :: s) = Bnf.whitespace_filter s
            ∧ Ebnf.whitespace_filter (c :: s) = Ebnf.whitespace_filter s)
      ∧ (Char.ofNat 0x120).toNat % 256 = 0x20
      ∧ Char.ofNat 0x120 ≠ ' '
      ∧ Char.ofNat 0x120 ≠ '\t'
      ∧ Char.ofNat 0x120 ≠ '\r'
      ∧ Char.ofNat 0x120 ≠ '\n' := by
  have hiff : ∀ c : Char, Bnf.is_whitespace c = true ↔
      (c.toNat % 256 = 0x20 ∨ c.toNat % 256 = 0x09
        ∨ c.toNat % 256 = 0x0d ∨ c.toNat % 256 = 0x0a) := by
    intro c
    simp [Bnf.is_whitespace, Bool.or_eq_true, beq_iff_eq, or_assoc]
  refine ⟨hiff, fun _ => rfl, ?_, by decide, by decide, by decide, by decide, by decide⟩
  intro c s hc
  have hw : Bnf.is_whitespace c = true := (hiff c).mpr hc
  constructor
  · rw [Bnf.whitespace_filter, if_pos hw]
  · calc Ebnf.whitespace_filter (c :: s)
        = Bnf.whitespace_filter (c :: s) := ebnf_whitespace_filter_eq_bnf _
      _ = Bnf.whitespace_filter s := by rw [Bnf.whitespace_filter, if_pos hw]
      _ = Ebnf.whitespace_filter s := (ebnf_whitespace_filter_eq_bnf s).symm

/-- Closed instance of `is_whitespace_low_byte`: `U+0120` (code point 288,
whose low byte is `0x20`) is skipped as leading whitespace in front of an
`x`. -/
theorem is_whitespace_low_byte_witness :
    Bnf.whitespace_filter (Char.ofNat 0x120 :: ['x']) = Bnf.whitespace_filter ['x']
      ∧ Ebnf.whitespace_filter (Char.ofNat 0x120 :: ['x']) = Ebnf.whitespace_filter ['x'] :=
  is_whitespace_low_byte.2.2.1 (Char.ofNat 0x120) ['x'] (by decide)

theorem firstMatch_selects_least (τ : Type) (rules : List (Rule τ)) (s : List Char) :
    ∀ (i : Nat) (hi : i < rules.length),
      ((rules.get ⟨i, hi⟩).pat s).isSome = true →
      ∃ (k : Nat) (hk : k < rules.length), k ≤ i
        ∧ (∀ (p : Nat) (hp : p < rules.length), p < k → (rules.get ⟨p, hp⟩).pat s = none)
        ∧ ∃ (m : RMatch) (rest : List Char),
            (rules.get ⟨k, hk⟩).pat s = some (m, rest)
              ∧ firstMatch rules s = some ((rules.get ⟨k, hk⟩).ctor m, m.m0, rest) := by
  induction rules with
  | nil => intro i hi; exact absurd hi (by simp)
  | cons r rs ih =>
    intro i hi hm
    cases hr : r.pat s with
    | some p =>
      obtain ⟨m, rest⟩ := p
      refine ⟨0, by simp, Nat.zero_le i, ?_, m, rest, hr, ?_⟩
      · intro p hp hp0; exact absurd hp0 (Nat.not_lt_zero p)
      · show firstMatch (r :: rs) s = some (r.ctor m, m.m0, rest)
        rw [firstMatch, hr]
    | none =>
      cases i with
      | zero =>
        exfalso
        have : (r.pat s).isSome = true := hm
        rw [hr] at this
        exact Bool.noConfusion this
      | succ i' =>
        have hi' : i' < rs.length := Nat.lt_of_succ_lt_succ hi
        have hm' : ((rs.get ⟨i', hi'⟩).pat s).isSome = true := hm
        obtain ⟨k, hk, hki, hmin, m, rest, hpat, hfm⟩ := ih i' hi' hm'
        refine ⟨k + 1, Nat.succ_lt_succ hk, Nat.succ_le_succ hki, ?_, m, rest, hpat, ?_⟩
        · intro p hp hpk
          cases p with
          | zero => exact hr
          | succ p' => exact hmin p' (Nat.lt_of_succ_lt_succ hp) (Nat.lt_of_succ_lt_succ hpk)
        · show firstMatch (r :: rs) s = _
          rw [firstMatch, hr]
          exact hfm

/-- C1: first-match-wins, never longest-match. For every engine and every
input position at which the rule registered at index `i` matches (while some
later-registered rule `j` may also match, no matter how long its match would
be), the single step selects the rule with the least matching index — a rule
registered no later than `i`, every rule before it failing to match — and
returns that rule's constructed token. -/
theorem first_registered_rule_wins (τ : Type) (l : Lexer τ) (input : List Char)
    (i j : Nat) (hi : i < l.rules.length) (hj : j < l.rules.length) (hij : i < j)
    (hmi : ((l.rules.get ⟨i, hi⟩).pat (l.skip input)).isSome = true)
    (hmj : ((l.rules.get ⟨j, hj⟩).pat (l.skip input)).isSome = true)
    (hne : l.skip input ≠ []) :
    ∃ (k : Nat) (hk : k < l.rules.length), k ≤ i ∧ k < j
      ∧ (∀ (p : Nat) (hp : p < l.rules.length), p < k →
          (l.rules.get ⟨p, hp⟩).pat (l.skip input) = none)
      ∧ ∃ (m : RMatch) (rest : List Char),
          (l.rules.get ⟨k, hk⟩).pat (l.skip input) = some (m, rest)
            ∧ l.next input = StepResult.tok ((l.rules.get ⟨k, hk⟩).ctor m) m.m0 rest := by
  obtain ⟨k, hk, hki, hmin, m, rest, hpat, hfm⟩ :=
    firstMatch_selects_least τ l.rules (l.skip input) i hi hmi
  refine ⟨k, hk, hki, Nat.lt_of_le_of_lt hki hij, hmin, m, rest, hpat, ?_⟩
  rw [Lexer.next]
  simp only [if_neg hne, hfm]

/-- Closed instance of `first_registered_rule_wins` on `overlapLexer` and
input `ab`: both rules match at the cursor, the second would match more text
(`ab` against `a`), yet the first registered rule (index 0, token `1`,
lexeme `a`) wins. -/
theorem first_registered_rule_wins_witness :
    ∃ (k : Nat) (hk : k < overlapLexer.rules.length), k ≤ 0 ∧ k < 1
      ∧ (∀ (p : Nat) (hp : p < overlapLexer.rules.length), p < k →
          (overlapLexer.rules.get ⟨p, hp⟩).pat (overlapLexer.skip ['a', 'b']) = none)
      ∧ ∃ (m : RMatch) (rest : List Char),
          (overlapLexer.rules.get ⟨k, hk⟩).pat (overlapLexer.skip ['a', 'b']) = some (m, rest)
            ∧ overlapLexer.next ['a', 'b']
                = StepResult.tok ((overlapLexer.rules.get ⟨k, hk⟩).ctor m) m.m0 rest :=
  first_registered_rule_wins Nat overlapLexer ['a', 'b'] 0 1
    (by decide) (by decide) (by decide) (by decide) (by decide) (by decide)

theorem dropComments_unfold (l : List (MetaResult EbnfToken)) :
    dropComments l = (match dropCommentsNext l with
      | none => []
      | some (i, rest) => i :: dropComments rest) := by
  rw [dropComments]
  split
  all_goals rename_i heq
  · rw [heq]
  · rw [heq]

theorem dropCommentsNext_none_filter (l : List (MetaResult EbnfToken))
    (h : dropCommentsNext l = none) :
    l.filter (fun x => ! isOkComment x) = [] := by
  induction l with
  | nil => rfl
  | cons x rest ih =>
    rw [dropCommentsNext] at h
    by_cases hx : isOkComment x = true
    · rw [if_pos hx] at h
      rw [List.filter_cons]
      simp only [hx, Bool.not_true, Bool.false_eq_true, if_false]
      exact ih h
    · rw [if_neg hx] at h
      cases h

theorem dropCommentsNext_some_filter (l : List (MetaResult EbnfToken))
    (i : MetaResult EbnfToken) (rest : List (MetaResult EbnfToken))
    (h : dropCommentsNext l = some (i, rest)) :
    l.filter (fun x => ! isOkComment x) = i :: rest.filter (fun x => ! isOkComment x) := by
  induction l generalizing i rest with
  | nil => cases h
  | cons x xs ih =>
    rw [dropCommentsNext] at h
    by_cases hx : isOkComment x = true
    · rw [if_pos hx] at h
      rw [List.filter_cons]
      simp only [hx, Bool.not_true, Bool.false_eq_true, if_false]
      exact ih i rest h
    · rw [if_neg hx] at h
      cases h
      rw [List.filter_cons]
      simp only [Bool.not_eq_true] at hx
      simp only [hx, Bool.not_false, if_true]

/-- C2: over any inner stream, the comment-drop adapter yields exactly the
inner stream's non-comment items in order — its output is the inner item
sequence filtered by the comment predicate, so every surviving item (with
its `Position`, source name and lexeme) is passed through unaltered. -/
theorem drop_comments_eq_filter (l : List (MetaResult EbnfToken)) :
    dropComments l = l.filter (fun x => ! isOkComment x) := by
  induction l using dropComments.induct with
  | case1 l h =>
    rw [dropComments_unfold, h, dropCommentsNext_none_filter l h]
  | case2 l i rest h ih =>
    rw [dropComments_unfold, h, dropCommentsNext_some_filter l i rest h]
    show i :: dropComments rest = i :: List.filter (fun x => ! isOkComment x) rest
    rw [ih]

/-- C3: whenever the item the inner stream yields next (after any run of
comment items already consumed on this pull) is an error, `DropComments`
returns exactly that error item on the current pull, leaving every later
inner item unpulled. -/
theorem drop_comments_error_propagation :
    (∀ (e : LexError) (rest : List (MetaResult EbnfToken)),
        dropCommentsNext (Except.error e :: rest) = some (Except.error e, rest))
      ∧ (∀ (pre : List (MetaResult EbnfToken)) (e : LexError)
            (rest : List (MetaResult EbnfToken)),
          (∀ x ∈ pre, isOkComment x = true) →
          dropCommentsNext (pre ++ Except.error e :: rest) = some (Except.error e, rest)) := by
  constructor
  · intro e rest
    rfl
  · intro pre
    induction pre with
    | nil => intro e rest _; rfl
    | cons x xs ih =>
      intro e rest hall
      have hx : isOkComment x = true := hall x (List.mem_cons_self x xs)
      rw [List.cons_append, dropCommentsNext, if_pos hx]
      exact ih e rest (fun y hy => hall y (List.mem_cons_of_mem x hy))

/-- Closed instance of `drop_comments_error_propagation`: with one comment
item in front of an `UnrecognizedInput` error, a single pull returns the
error itself, with the (empty) tail untouched. -/
theorem drop_comments_error_propagation_witness :
    dropCommentsNext ([sampleCommentItem] ++ Except.error sampleErrorItem :: [])
      = some (Except.error sampleErrorItem, []) :=
  drop_comments_error_propagation.2 [sampleCommentItem] sampleErrorItem []
    (by decide)

/-- C5 counterexample: the claim "every front-end token type provides both
describe() and a payload-independent descriptor()" fails concretely — the
`impl Token for GoToken` block defines no `descriptor` method at all, and
even where `descriptor` exists it is not payload-independent:
`Operator(Def)` and `Operator(Alt)` are two values of the same `Operator`
variant (equal discriminants) with different descriptors. -/
theorem token_contract_counterexample :
    goTokenImplMethods.descriptorImpl.isSome = false
      ∧ (BnfToken.Operator BnfOperator.Def).variant
          = (BnfToken.Operator BnfOperator.Alt).variant
      ∧ BnfToken.descriptor (BnfToken.Operator BnfOperator.Def)
          ≠ BnfToken.descriptor (BnfToken.Operator BnfOperator.Alt) := by
  refine ⟨rfl, rfl, ?_⟩
  decide

/-- C5 (amended): `BnfToken` and `EbnfToken` provide both `describe()` and
`descriptor()`, and their descriptors are independent of the string payloads
of `Terminal`, `NonTerminal` and `Comment`; however the descriptor does
depend on the operator/side payload (`Operator(Def)` ↦ `::=` versus
`Operator(Alt)` ↦ `|`), and `GoToken` provides only `describe()` — its
`Token` impl defines no `descriptor()`. -/
theorem token_contract_status :
    (∀ s t : List Char, BnfToken.descriptor (BnfToken.Terminal s)
        = BnfToken.descriptor (BnfToken.Terminal t))
      ∧ (∀ s t : List Char, BnfToken.descriptor (BnfToken.NonTerminal s)
          = BnfToken.descriptor (BnfToken.NonTerminal t))
      ∧ (∀ s t : List Char, EbnfToken.descriptor (EbnfToken.Terminal s)
          = EbnfToken.descriptor (EbnfToken.Terminal t))
      ∧ (∀ s t : List Char, EbnfToken.descriptor (EbnfToken.NonTerminal s)
          = EbnfToken.descriptor (EbnfToken.NonTerminal t))
      ∧ (∀ s t : List Char, EbnfToken.descriptor (EbnfToken.Comment s)
          = EbnfToken.descriptor (EbnfToken.Comment t))
      ∧ BnfToken.descriptor (BnfToken.Operator BnfOperator.Def)
          ≠ BnfToken.descriptor (BnfToken.Operator BnfOperator.Alt)
      ∧ bnfTokenImplMethods.describeImpl.isSome = true
      ∧ bnfTokenImplMethods.descriptorImpl.isSome = true
      ∧ ebnfTokenImplMethods.describeImpl.isSome = true
      ∧ ebnfTokenImplMethods.descriptorImpl.isSome = true
      ∧ goTokenImplMethods.describeImpl.isSome = true
      ∧ goTokenImplMethods.descriptorImpl.isSome = false :=
  ⟨fun _ _ => rfl, fun _ _ => rfl, fun _ _ => rfl, fun _ _ => rfl, fun _ _ => rfl,
    by decide, rfl, rfl, rfl, rfl, rfl, rfl⟩

/-- C6 counterexample: the claim "every front-end's lexer configuration
installs a whitespace classifier via skip_whitespaces before build" fails for
the Go front-end — `make_lexer` in `src/lang/golang.rs` never calls
`skip_whitespaces`, so its builder reaches `build()` with no whitespace
classifier installed. -/
theorem whitespace_installed_counterexample :
    Golang.builderConfig.skipFn.isSome = false :=
  rfl

/-- C6 (amended): the BNF and EBNF lexer configurations install their
`whitespace_filter` via `skip_whitespaces` before `build`, but the Go
front-end's configuration installs no whitespace classifier. -/
theorem whitespace_installed_status :
    Bnf.builderConfig.skipFn = some Bnf.whitespace_filter
      ∧ Ebnf.builderConfig.skipFn = some Ebnf.whitespace_filter
      ∧ Golang.builderConfig.skipFn = none :=
  ⟨rfl, rfl, rfl⟩

/-- C7: tokenizing the canonical BNF sample `<A> ::= <B> | "c" <D> ;` with
the BNF lexer yields exactly `NonTerminal("A")`, `Operator(Def)`,
`NonTerminal("B")`, `Operator(Alt)`, `Terminal("c")`, `NonTerminal("D")`,
`Delimiter`, in that order. -/
theorem bnf_canonical_sample :
    Bnf.make_lexer.rawTokens (String.toList "<A> ::= <B> | \"c\" <D> ;")
      = [BnfToken.NonTerminal ['A'],
         BnfToken.Operator BnfOperator.Def,
         BnfToken.NonTerminal ['B'],
         BnfToken.Operator BnfOperator.Alt,
         BnfToken.Terminal ['c'],
         BnfToken.NonTerminal ['D'],
         BnfToken.Delimiter] := by
  decide

/-- C9: the BNF terminal pattern `"(.*?)"` matches the empty quoted string —
the two-character input `""` lexes to `Terminal("")` with the whole input as
lexeme — while the non-terminal pattern `<(.+?)>` needs at least one
character between the brackets, so on input `<>` no rule matches and the
step fails with `UnrecognizedInput`. -/
theorem bnf_empty_terminal_vs_empty_nonterminal :
    Bnf.make_lexer.next [quoteC, quoteC]
        = StepResult.tok (BnfToken.Terminal []) [quoteC, quoteC] []
      ∧ Bnf.make_lexer.next ['<', '>'] = StepResult.err := by
  constructor
  · decide
  · decide

/-- C10: the Go rune rule's constructor uses the entire match (capture
group 0), so every produced rune payload keeps the enclosing single quotes —
any successful rune match has whole-match form `'…'` and input `'a'` yields
`Literal(Rune("'a'"))` — whereas the BNF terminal constructor uses capture
group 1, the text strictly between the double quotes, so `"c"` yields
`Terminal("c")` although its lexeme is `"c"` with quotes. -/
theorem go_rune_group0_vs_bnf_group1 :
    (∀ (s : List Char) (m : RMatch) (rest : List Char),
        Golang.runePat s = some (m, rest) →
        ∃ inner : List Char, m.m0 = apostC :: inner ++ [apostC] ∧ m.m1 = some inner)
      ∧ (∀ (s : List Char) (m : RMatch) (rest : List Char),
          Rx.termPat s = some (m, rest) →
          ∃ g : List Char, m.m0 = quoteC :: g ++ [quoteC] ∧ m.m1 = some g)
      ∧ Golang.make_lexer.next [apostC, 'a', apostC]
          = StepResult.tok (GoToken.Literal (GoLiteral.Rune [apostC, 'a', apostC]))
              [apostC, 'a', apostC] []
      ∧ Bnf.make_lexer.next [quoteC, 'c', quoteC]
          = StepResult.tok (BnfToken.Terminal ['c']) [quoteC, 'c', quoteC] [] := by
  refine ⟨?_, ?_, by decide, by decide⟩
  · intro s m rest h
    rw [Golang.runePat.eq_def] at h
    repeat' split at h
    all_goals cases h
    all_goals exact ⟨_, rfl, rfl⟩
  · intro s m rest h
    rw [Rx.termPat.eq_def] at h
    repeat' split at h
    · rw [Option.map_eq_some'] at h
      obtain ⟨p, hp, hfp⟩ := h
      cases hfp
      exact ⟨p.1, rfl, rfl⟩
    · cases h
    · cases h

/-- Closed instance of `go_rune_group0_vs_bnf_group1`: the rune match on
`'a'` has group 0 `'a'` (quotes kept) and group 1 `a`. -/
theorem go_rune_group0_vs_bnf_group1_witness :
    ∃ inner : List Char,
      (RMatch.mk [apostC, 'a', apostC] (some ['a'])).m0 = apostC :: inner ++ [apostC]
        ∧ (RMatch.mk [apostC, 'a', apostC] (some ['a'])).m1 = some inner :=
  go_rune_group0_vs_bnf_group1.1 [apostC, 'a', apostC]
    (RMatch.mk [apostC, 'a', apostC] (some ['a'])) [] (by decide)
